import Mathlib

/-!
A shallow embedding of `deploy.py`, a build-and-deploy script for a static
HTML page.  Strings are modelled as `List Char`, binary file contents as
`List Nat` (byte values), and the filesystem as partial maps from paths to
contents; a `none` result of a read models the `open`/read raising an
exception.  Every function below is translated from the corresponding
Python function of `deploy.py` and is written by structural recursion so
that it evaluates inside the kernel.
-/

/-- The filesystem visible to the script: text-mode reads (`open(p, "r")`),
binary-mode reads (`open(p, "rb")`), and the list of existing directories.
A `none` read models the call raising (missing or unreadable file). -/
structure FS where
  text : List Char → Option (List Char)
  bin : List Char → Option (List Nat)
  dirs : List (List Char)

/-- Python `f.readline()`: the first line of the content, keeping the
terminating newline when there is one. -/
def readline : List Char → List Char
  | [] => []
  | c :: cs => if c = '\n' then ['\n'] else c :: readline cs

/-- Python iteration over an open text file (`for line in f`): the list of
lines, each keeping its terminating newline; the final line may lack one. -/
def pylines : List Char → List (List Char)
  | [] => []
  | c :: cs =>
    if c = '\n' then ['\n'] :: pylines cs
    else
      match pylines cs with
      | [] => [[c]]
      | l :: ls => (c :: l) :: ls

/-- The ASCII whitespace recognized by Python `str.strip()`. -/
def isPySpace (c : Char) : Bool :=
  c == ' ' || c == '\t' || c == '\n' || c == '\r' || c == '\x0b' || c == '\x0c'

/-- Leading-whitespace removal, as in Python `str.lstrip()`. -/
def lstrip (s : List Char) : List Char := s.dropWhile isPySpace

/-- Trailing-whitespace removal, as in Python `str.rstrip()`. -/
def rstrip (s : List Char) : List Char := (s.reverse.dropWhile isPySpace).reverse

/-- Python `str.strip()`: remove leading and trailing whitespace. -/
def pystrip (s : List Char) : List Char := rstrip (lstrip s)

/-- `containsSub pat s` is true when `pat` occurs as a contiguous substring
of `s` (Python `pat in s`). -/
def containsSub (pat : List Char) : List Char → Bool
  | [] => pat.isPrefixOf []
  | c :: cs => pat.isPrefixOf (c :: cs) || containsSub pat cs

/-- Fuel-indexed Python `str.split(sep)`: left-to-right, non-overlapping.
The fuel only serves to make the recursion structural; with
`fuel ≥ s.length` (and a nonempty `sep`, as Python requires) it never runs
out. -/
def pysplitF (sep : List Char) : Nat → List Char → List (List Char)
  | _, [] => [[]]
  | 0, c :: cs => [c :: cs]
  | fuel + 1, c :: cs =>
    if sep ≠ [] ∧ sep.isPrefixOf (c :: cs) then
      [] :: pysplitF sep fuel ((c :: cs).drop sep.length)
    else
      match pysplitF sep fuel cs with
      | [] => [[c]]
      | p :: ps => (c :: p) :: ps

/-- Python `s.split(sep)` for a nonempty separator. -/
def pysplit (sep s : List Char) : List (List Char) := pysplitF sep s.length s

/-- The last element of a split, i.e. Python `lst[-1]` on the (always
nonempty) result of `split`. -/
def pylast : List (List Char) → List Char
  | [] => []
  | [p] => p
  | _ :: q :: ps => pylast (q :: ps)

/-- Fuel-indexed Python `str.replace(old, new)`: every left-to-right
non-overlapping occurrence of `old` is replaced by `new`.  The fuel only
makes the recursion structural; with `fuel ≥ s.length` (and `old ≠ []`,
as in every use the script makes) it never runs out. -/
def pyreplaceF (old new : List Char) : Nat → List Char → List Char
  | _, [] => []
  | 0, c :: cs => c :: cs
  | fuel + 1, c :: cs =>
    if old ≠ [] ∧ old.isPrefixOf (c :: cs) then
      new ++ pyreplaceF old new fuel ((c :: cs).drop old.length)
    else
      c :: pyreplaceF old new fuel cs

/-- Python `s.replace(old, new)` for a nonempty `old`. -/
def pyreplace (old new s : List Char) : List Char := pyreplaceF old new s.length s

/-- The separator `': v'` used by `get_ver` on the changelog's first line. -/
def vsep : List Char := [':', ' ', 'v']

/-- `get_ver`: read the first line of `Changelog.md`, strip it, split on
`': v'` and return the last piece; any exception is caught and turned into
`none`. -/
def get_ver (fs : FS) : Option (List Char) :=
  match fs.text (("Changelog.md").data) with
  | none => none
  | some content => some (pylast (pysplit vsep (pystrip (readline content))))

/-- `make_manual`: convert `README.md` with the (external, black-box)
markdown converter, then write `header.html`, `footer.html` and the
converted body — in that order — to `manual.html`, returning the body.
The first component is the content of `manual.html` after the call
(`none`: never opened); the second is the function's return value, `""`
when an exception was caught. -/
def make_manual (fs : FS) (md_convert : List Char → List Char) :
    Option (List Char) × List Char :=
  match fs.text (("README.md").data) with
  | none => (none, [])
  | some txt =>
    let html := md_convert txt
    match fs.text (("header.html").data) with
    | none => (some [], [])
    | some hdr =>
      match fs.text (("footer.html").data) with
      | none => (some hdr, [])
      | some ftr => (some (hdr ++ ftr ++ html), html)

/-- `embed_service_worker`: copy `sw.js` to `sw_deploy.js`, replacing every
occurrence of the literal `VERSION` with the version string; `none` when
the read raised (nothing written). -/
def embed_service_worker (fs : FS) (version : List Char) : Option (List Char) :=
  match fs.text (("sw.js").data) with
  | none => none
  | some content => some (pyreplace (("VERSION").data) version content)

/-- The base64 alphabet. -/
def b64chars : List Char :=
  ("ABCDEFGHIJKLMNOPQRSTUVWXYZabcdefghijklmnopqrstuvwxyz0123456789+/").data

/-- The base64 digit for a sextet value. -/
def b64char (n : Nat) : Char := b64chars.getD n 'A'

/-- Standard base64 of a byte sequence (each byte `< 256`), with `=`
padding, as produced by Python `base64.b64encode`. -/
def b64encode : List Nat → List Char
  | [] => []
  | [a] => [b64char (a / 4), b64char (a % 4 * 16), '=', '=']
  | [a, b] => [b64char (a / 4), b64char (a % 4 * 16 + b / 16), b64char (b % 16 * 4), '=']
  | a :: b :: c :: rest =>
    b64char (a / 4) :: b64char (a % 4 * 16 + b / 16) ::
      b64char (b % 16 * 4 + c / 64) :: b64char (c % 64) :: b64encode rest

/-- `png_encode`: read a PNG as bytes and produce a base64 data URI; any
exception (e.g. a missing file) is caught inside and gives `""`. -/
def png_encode (fs : FS) (path : List Char) : List Char :=
  match fs.bin path with
  | none => []
  | some png => ("data:image/png;base64,").data ++ b64encode png

/-- The literal opener of the script-include pattern
`^<script src="(.*)"></script>`. -/
def script_src_open : List Char := ("<script src=\"").data

/-- The literal closer of the script-include pattern. -/
def script_src_close : List Char := ("\"></script>").data

/-- The greedy group of `(.*)sfx` inside a line: the longest newline-free
prefix `p` of `s` such that `sfx` follows `p` in `s`; `none` when the
pattern cannot match. -/
def greedyGroup (sfx : List Char) : List Char → Option (List Char)
  | [] => none
  | c :: cs =>
    if c = '\n' then (if sfx.isPrefixOf (c :: cs) then some [] else none)
    else
      match greedyGroup sfx cs with
      | some p => some (c :: p)
      | none => if sfx.isPrefixOf (c :: cs) then some [] else none

/-- `re.match` of `^<script src="(.*)"></script>` on a line: `some src`
with the greedy group when the line matches, else `none`. -/
def script_match (line : List Char) : Option (List Char) :=
  if script_src_open.isPrefixOf line then
    greedyGroup script_src_close (line.drop script_src_open.length)
  else none

/-- The literal marker of the version pattern `.*Settings \((version)\).*`. -/
def settings_marker : List Char := ("Settings (version)").data

/-- `re.match` of `.*Settings \((version)\).*` on a line, as a Boolean:
true iff the marker occurs before the line's first newline. -/
def version_matches (line : List Char) : Bool :=
  containsSub settings_marker (line.takeWhile (fun c => c != '\n'))

/-- The filename character class `[a-z0-9_\-]` of the CSS-url PNG pattern. -/
def isPngChar (c : Char) : Bool :=
  (decide ('a' ≤ c) && decide (c ≤ 'z')) ||
  (decide ('0' ≤ c) && decide (c ≤ '9')) || c == '_' || c == '-'

/-- The path character class `[a-z0-9_\-\/]` of the img-src PNG pattern. -/
def isPng2Char (c : Char) : Bool := isPngChar c || c == '/'

/-- Match `[class]*\.png` followed by the literal `close` at the start of
`t`, returning the name (with its `.png`) and the rest after `close`.
Because `.` is not in the character class, the greedy star cannot
backtrack into the run, so taking the maximal run is faithful to the
regex. -/
def pngTail (isC : Char → Bool) (close : List Char) (t : List Char) :
    Option (List Char × List Char) :=
  let r := t.takeWhile isC
  let rest := t.drop r.length
  if ((".png").data ++ close).isPrefixOf rest then
    some (r ++ (".png").data, rest.drop ((".png").data ++ close).length)
  else none

/-- The rightmost-first scan of `^(.*)url\(([a-z0-9_\-]*\.png)\)(.*)$` over
the newline-free body of a line: the greedy `(.*)` prefers the rightmost
`url(` occurrence that completes. -/
def urlScan : List Char → Option (List Char × List Char × List Char)
  | [] => none
  | c :: cs =>
    match urlScan cs with
    | some (g1, g2, g3) => some (c :: g1, g2, g3)
    | none =>
      if (("url(").data).isPrefixOf (c :: cs) then
        match pngTail isPngChar [')'] ((c :: cs).drop (("url(").data).length) with
        | some (name, rest) => some ([], name, rest)
        | none => none
      else none

/-- A single trailing newline removed, when present (the position where
`$` matches in a Python regex). -/
def chompNl : List Char → List Char
  | [] => []
  | [c] => if c = '\n' then [] else [c]
  | c :: d :: cs => c :: chompNl (d :: cs)

/-- The part of a line a `^...$`-anchored pattern of newline-free groups
can see: the line without its trailing newline, provided no interior
newline remains. -/
def dollarBody (line : List Char) : Option (List Char) :=
  let b := chompNl line
  if b.contains '\n' then none else some b

/-- `re.match` of `^(.*)url\(([a-z0-9_\-]*\.png)\)(.*)$` on a line,
returning the three groups. -/
def urlpng_match (line : List Char) : Option (List Char × List Char × List Char) :=
  match dollarBody line with
  | none => none
  | some body => urlScan body

/-- The rightmost-first scan of
`^(.*<img.*)src="([a-z0-9_\-\/]*\.png)"(.*)$`: `pre` is the prefix already
passed; the match uses the rightmost `src="` occurrence whose name
completes and that has a complete `<img` somewhere before it (the two
greedy stars of group 1). -/
def imgScan (pre : List Char) : List Char → Option (List Char × List Char × List Char)
  | [] => none
  | c :: cs =>
    match imgScan (pre ++ [c]) cs with
    | some r => some r
    | none =>
      if (("src=\"").data).isPrefixOf (c :: cs) ∧ containsSub (("<img").data) pre then
        match pngTail isPng2Char ['"'] ((c :: cs).drop (("src=\"").data).length) with
        | some (name, rest) => some (pre, name, rest)
        | none => none
      else none

/-- `re.match` of `^(.*<img.*)src="([a-z0-9_\-\/]*\.png)"(.*)$` on a line,
returning groups 1, 2 and 3. -/
def img_match (line : List Char) : Option (List Char × List Char × List Char) :=
  match dollarBody line with
  | none => none
  | some body => imgScan [] body

/-- One iteration of `embed`'s loop: the chunk written to the output file
for a template line, or `none` when the iteration raises (the external
script named by a matching script-include line cannot be read).  The five
classifiers are tried in the priority order of the source. -/
def process_line (fs : FS) (manual version line : List Char) : Option (List Char) :=
  match script_match line with
  | some src =>
    match fs.text src with
    | none => none
    | some inline_content =>
      some ((("<script>\n").data) ++ inline_content ++ (("</script>\n").data))
  | none =>
    if version_matches line then
      some (pyreplace (("version").data) version line)
    else
      match urlpng_match line with
      | some (g1, g2, g3) =>
        some (g1 ++ (("url(").data) ++ png_encode fs g2 ++ [')'] ++ g3 ++ ['\n'])
      | none =>
        match img_match line with
        | some (g1, g2, g3) =>
          some (g1 ++ (("src=\"").data) ++ png_encode fs g2 ++ ['"'] ++ g3 ++ ['\n'])
        | none =>
          if pystrip line = ("MANUAL").data then some manual else some line

/-- `embed`'s loop over the template lines: the content written to the
output file and whether an exception aborted the pass (the partial output
written before the failing line is kept). -/
def embedGo (fs : FS) (manual version : List Char) : List (List Char) → List Char × Bool
  | [] => ([], false)
  | line :: rest =>
    match process_line fs manual version line with
    | none => ([], true)
    | some chunk =>
      let r := embedGo fs manual version rest
      (chunk ++ r.1, r.2)

/-- `embed`: transform `astrohopper.html` into `astrohopper_deploy.html`
line by line.  First component: the output file's content (`none`: the
template could not be read and the output file was never opened); second:
whether the top-level handler caught an exception. -/
def embed (fs : FS) (manual version : List Char) : Option (List Char) × Bool :=
  match fs.text (("astrohopper.html").data) with
  | none => (none, true)
  | some tpl =>
    let r := embedGo fs manual version (pylines tpl)
    (some r.1, r.2)

/-- The outcome of one copy attempt made by `deploy_files`. -/
inductive DAct where
  | mkdirs : List Char → DAct
  | copy_ok : List Char → List Char → DAct
  | copy_err : List Char → DAct
  | tree_ok : List Char → List Char → DAct
  | tree_err_missing : List Char → DAct
  | tree_err_exists : List Char → DAct
deriving DecidableEq

/-- `os.path.flatten` for the uses the script makes (relative second part). -/
def path_join (a b : List Char) : List Char :=
  if a = [] then b
  else if a.getLast? = some '/' then a ++ b
  else a ++ '/' :: b

/-- `copyf`: copy a file, catching and logging `FileNotFoundError`. -/
def copyf (fs : FS) (src tgt : List Char) : DAct :=
  if (fs.bin src).isSome then DAct.copy_ok src tgt else DAct.copy_err src

/-- `copytree`: copy a directory, catching and logging
`FileNotFoundError` and `FileExistsError`. -/
def copytree (fs : FS) (src tgt : List Char) : DAct :=
  if fs.dirs.contains src = false then DAct.tree_err_missing src
  else if fs.dirs.contains tgt then DAct.tree_err_exists tgt
  else DAct.tree_ok src tgt

/-- The hardcoded deployment file list of `deploy_files`. -/
def files_to_copy : List (List Char) :=
  [("astrohopper_deploy.html").data, ("sw_deploy.js").data, ("LICENSE").data,
   ("COPYING.md").data, ("manual.html").data, ("manifest.json").data]

/-- `deploy_files`: create the target directory when absent, copy the
listed files one by one, then copy the `icons` directory; the trace of
attempted actions, in order. -/
def deploy_files (fs : FS) (target : List Char) : List DAct :=
  (if fs.dirs.contains target then [] else [DAct.mkdirs target]) ++
  files_to_copy.map (fun f => copyf fs f (path_join target f)) ++
  [copytree fs (("icons").data) (path_join target (("icons").data))]

/-- The pipeline steps `main` can run, in order. -/
inductive Step where
  | create_db : Step
  | make_manual : Step
  | embed : Step
  | embed_service_worker : Step
  | deploy_files : Step
deriving DecidableEq

/-- Python falsiness of the version value: `not ver` is true for `None`
and for the empty string. -/
def py_falsy : Option (List Char) → Bool
  | none => true
  | some v => v.isEmpty

/-- The script's `main` (renamed here because Lean reserves `main`): run
`create_db`, read the version, and abort (printing the message) when the
version is absent or empty; otherwise run the remaining steps.  Result:
the steps run, and whether the abort message was printed. -/
def main_run (fs : FS) : List Step × Bool :=
  if py_falsy (get_ver fs) then ([Step.create_db], true)
  else
    ([Step.create_db, Step.make_manual, Step.embed,
      Step.embed_service_worker, Step.deploy_files], false)

/-! ### Concrete fixtures used to evaluate the development on closed inputs -/

/-- An empty filesystem: every read raises, no directories exist. -/
def fs_empty : FS := ⟨fun _ => none, fun _ => none, []⟩

/-- A template of two plain lines matching no classifier. -/
def fs_c1w : FS where
  text := fun p =>
    if p = ("astrohopper.html").data then some (("hello\nworld\n").data) else none
  bin := fun _ => none
  dirs := []

/-- A template consisting of one script-include line, and the included
script `app.js` with content `x` (no trailing newline). -/
def fs_c2x : FS where
  text := fun p =>
    if p = ("astrohopper.html").data then
      some (("<script src=\"app.js\"></script>\n").data)
    else if p = ("app.js").data then some (("x").data)
    else none
  bin := fun _ => none
  dirs := []

/-- A template whose first line references the PNG `a.png` through a CSS
`url(...)`; the PNG does not exist, and a further line follows. -/
def fs_c3x : FS where
  text := fun p =>
    if p = ("astrohopper.html").data then some (("url(a.png)\nnext\n").data)
    else none
  bin := fun _ => none
  dirs := []

/-- A template whose single line matches both the script-include pattern
and the version-marker pattern; the referenced script `a.js` exists. -/
def fs_c4x : FS where
  text := fun p =>
    if p = ("astrohopper.html").data then
      some (("<script src=\"a.js\"></script> Settings (version)\n").data)
    else if p = ("a.js").data then some (("x").data)
    else none
  bin := fun _ => none
  dirs := []

/-- A changelog whose first line carries a version with a trailing
space. -/
def fs_c5x : FS where
  text := fun p =>
    if p = ("Changelog.md").data then some (("Release notes: v2.3.1 \n").data)
    else none
  bin := fun _ => none
  dirs := []

/-- A changelog with a well-formed first line followed by older notes. -/
def fs_c5w : FS where
  text := fun p =>
    if p = ("Changelog.md").data then
      some (("Release notes: v2.3.1\nolder notes").data)
    else none
  bin := fun _ => none
  dirs := []

/-- A changelog whose first line contains no `': v'` separator. -/
def fs_c6b : FS where
  text := fun p =>
    if p = ("Changelog.md").data then some (("hello").data) else none
  bin := fun _ => none
  dirs := []

/-- A filesystem where every read raises (used for the missing-changelog
side of the version-reader analysis). -/
def fs_c6a : FS := ⟨fun _ => none, fun _ => none, []⟩

/-- A filesystem where every read raises, so the changelog is missing. -/
def fs_c7w : FS := ⟨fun _ => none, fun _ => none, []⟩

/-- README, header and footer of one character each, to exhibit the order
in which `make_manual` writes them. -/
def fs_c8 : FS where
  text := fun p =>
    if p = ("README.md").data then some (("B").data)
    else if p = ("header.html").data then some (("H").data)
    else if p = ("footer.html").data then some (("F").data)
    else none
  bin := fun _ => none
  dirs := []

/-- Every deployable file except `LICENSE` exists; the `icons` directory
exists and the target directory does not. -/
def fs_c9w : FS where
  text := fun _ => none
  bin := fun p =>
    if p = ("LICENSE").data then none
    else if p ∈ files_to_copy then some [0] else none
  dirs := [("icons").data]

/-- A changelog whose first line ends with the separator `': v'`. -/
def fs_c10w : FS where
  text := fun p =>
    if p = ("Changelog.md").data then some (("Release notes: v\n").data)
    else none
  bin := fun _ => none
  dirs := []

/-! ### Helper lemmas on the string primitives -/

theorem isPrefixOf_append_self (l t : List Char) : l.isPrefixOf (l ++ t) = true := by
  induction l with
  | nil => simp [List.isPrefixOf]
  | cons c cs ih => simp [List.isPrefixOf, ih]

theorem containsSub_of_prefix {pat s : List Char} (h : pat.isPrefixOf s = true) :
    containsSub pat s = true := by
  cases s with
  | nil => simpa [containsSub] using h
  | cons c cs => simp [containsSub, h]

theorem isPrefixOf_ex {l s : List Char} (h : l.isPrefixOf s = true) :
    ∃ t, s = l ++ t := by
  induction l generalizing s with
  | nil => exact ⟨s, rfl⟩
  | cons c cs ih =>
    cases s with
    | nil => simp [List.isPrefixOf] at h
    | cons d ds =>
      simp only [List.isPrefixOf, Bool.and_eq_true, beq_iff_eq] at h
      obtain ⟨t, ht⟩ := ih h.2
      exact ⟨t, by simp [h.1, ht]⟩

theorem isSuffixOf_ex {l s : List Char} (h : l.isSuffixOf s = true) :
    ∃ t, s = t ++ l := by
  unfold List.isSuffixOf at h
  obtain ⟨t, ht⟩ := isPrefixOf_ex h
  refine ⟨t.reverse, ?_⟩
  have h2 := congrArg List.reverse ht
  simpa using h2

theorem containsSub_append_mid (p a b : List Char) :
    containsSub p (a ++ p ++ b) = true := by
  induction a with
  | nil =>
    simp only [List.nil_append]
    exact containsSub_of_prefix (isPrefixOf_append_self p b)
  | cons c cs ih =>
    simp only [List.cons_append, containsSub, Bool.or_eq_true]
    right
    simpa using ih

theorem pysplitF_no_sep (sep : List Char) (f : Nat) (s : List Char)
    (h : containsSub sep s = false) : pysplitF sep f s = [s] := by
  induction f generalizing s with
  | zero =>
    cases s with
    | nil => rfl
    | cons c cs => rfl
  | succ fuel ih =>
    cases s with
    | nil => rfl
    | cons c cs =>
      simp only [containsSub, Bool.or_eq_false_iff] at h
      simp only [pysplitF]
      rw [if_neg fun hc => by rw [h.1] at hc; exact Bool.noConfusion hc.2]
      rw [ih cs h.2]

theorem pysplitF_ne_nil (sep : List Char) (f : Nat) (s : List Char) :
    pysplitF sep f s ≠ [] := by
  match f, s with
  | _, [] => simp [pysplitF]
  | 0, c :: cs => simp [pysplitF]
  | fuel + 1, c :: cs =>
    simp only [pysplitF]
    split
    · simp
    · split <;> simp

theorem pylast_cons_of_ne_nil (p : List Char) (L : List (List Char)) (h : L ≠ []) :
    pylast (p :: L) = pylast L := by
  match L with
  | [] => exact absurd rfl h
  | q :: ps => rfl

theorem pylast_match_step (c : Char) (L : List (List Char)) (h : 2 ≤ L.length) :
    pylast (match L with | [] => [[c]] | p :: ps => (c :: p) :: ps) = pylast L := by
  match L with
  | [] => simp at h
  | [p] => simp at h
  | p :: q :: ps => rfl

theorem pysplitF_len2 (sep : List Char) (hsep : sep ≠ []) (f : Nat) :
    ∀ s : List Char, s.length ≤ f → containsSub sep s = true →
      2 ≤ (pysplitF sep f s).length := by
  induction f with
  | zero =>
    intro s hf hc
    cases s with
    | nil =>
      exfalso
      cases sep with
      | nil => exact hsep rfl
      | cons a as => simp [containsSub, List.isPrefixOf] at hc
    | cons c cs => simp at hf
  | succ fuel ih =>
    intro s hf hc
    cases s with
    | nil =>
      exfalso
      cases sep with
      | nil => exact hsep rfl
      | cons a as => simp [containsSub, List.isPrefixOf] at hc
    | cons c cs =>
      simp only [pysplitF]
      by_cases hp : sep ≠ [] ∧ sep.isPrefixOf (c :: cs) = true
      · rw [if_pos hp]
        have hne := pysplitF_ne_nil sep fuel ((c :: cs).drop sep.length)
        have hpos : 1 ≤ (pysplitF sep fuel ((c :: cs).drop sep.length)).length :=
          Nat.succ_le_of_lt (List.length_pos.mpr hne)
        simp only [List.length_cons]
        omega
      · rw [if_neg hp]
        simp only [containsSub, Bool.or_eq_true] at hc
        have hpre : sep.isPrefixOf (c :: cs) = false := by
          cases hval : sep.isPrefixOf (c :: cs) with
          | false => rfl
          | true => exact absurd ⟨hsep, hval⟩ hp
        have hc2 : containsSub sep cs = true := by
          rcases hc with hc | hc
          · rw [hpre] at hc; exact Bool.noConfusion hc
          · exact hc
        have h2 := ih cs (by simpa using Nat.le_of_succ_le_succ hf) hc2
        match hm : pysplitF sep fuel cs with
        | [] => rw [hm] at h2; simp at h2
        | p :: ps =>
          rw [hm] at h2
          simp only [List.length_cons] at h2 ⊢
          omega

theorem vsep_ne_nil : vsep ≠ [] := by simp [vsep]

theorem pylast_head_irrel (z w q : List Char) (ps : List (List Char)) :
    pylast (z :: q :: ps) = pylast (w :: q :: ps) := rfl

theorem pysplit_last_v (f : Nat) :
    ∀ a b : List Char, (a ++ vsep ++ b).length ≤ f → containsSub vsep b = false →
      pylast (pysplitF vsep f (a ++ vsep ++ b)) = b := by
  induction f with
  | zero =>
    intro a b hf hb
    exfalso
    simp [vsep, List.length_append] at hf
  | succ fuel ih =>
    intro a b hf hb
    match a with
    | [] =>
      have harg : ([] : List Char) ++ vsep ++ b = ':' :: ' ' :: 'v' :: b := by
        simp [vsep]
      rw [harg]
      have hpre : vsep.isPrefixOf (':' :: ' ' :: 'v' :: b) = true := by
        simp [vsep, List.isPrefixOf]
      simp only [pysplitF]
      rw [if_pos ⟨vsep_ne_nil, hpre⟩]
      have hdrop : (':' :: ' ' :: 'v' :: b).drop vsep.length = b := rfl
      rw [hdrop, pysplitF_no_sep vsep fuel b hb]
      rfl
    | [c] =>
      have harg : [c] ++ vsep ++ b = c :: ':' :: ' ' :: 'v' :: b := by simp [vsep]
      rw [harg]
      simp only [pysplitF]
      rw [if_neg (fun hc => by
        have hpre := hc.2
        simp [vsep, List.isPrefixOf] at hpre)]
      have hlen : (':' :: ' ' :: 'v' :: b).length ≤ fuel := by
        simp [vsep] at hf ⊢
        omega
      have hcs : containsSub vsep (':' :: ' ' :: 'v' :: b) = true := by
        have h0 := containsSub_append_mid vsep [] b
        simpa [vsep] using h0
      have h2 := pysplitF_len2 vsep vsep_ne_nil fuel _ hlen hcs
      have h1 := ih [] b (by simpa [vsep] using hlen) hb
      rw [show ([] : List Char) ++ vsep ++ b = ':' :: ' ' :: 'v' :: b from by simp [vsep]] at h1
      cases hm : pysplitF vsep fuel (':' :: ' ' :: 'v' :: b) with
      | nil => exact absurd hm (pysplitF_ne_nil _ _ _)
      | cons p ps =>
        rw [hm] at h1 h2
        cases ps with
        | nil => simp at h2
        | cons q ps2 =>
          simp only [hm]
          rw [pylast_head_irrel (c :: p) p q ps2]
          exact h1
    | [c1, c2] =>
      have harg : [c1, c2] ++ vsep ++ b = c1 :: c2 :: ':' :: ' ' :: 'v' :: b := by
        simp [vsep]
      rw [harg]
      simp only [pysplitF]
      rw [if_neg (fun hc => by
        have hpre := hc.2
        simp [vsep, List.isPrefixOf] at hpre)]
      have hlen : (c2 :: ':' :: ' ' :: 'v' :: b).length ≤ fuel := by
        simp [vsep] at hf ⊢
        omega
      have hcs : containsSub vsep (c2 :: ':' :: ' ' :: 'v' :: b) = true := by
        have h0 := containsSub_append_mid vsep [c2] b
        simpa [vsep] using h0
      have h2 := pysplitF_len2 vsep vsep_ne_nil fuel _ hlen hcs
      have h1 := ih [c2] b (by simpa [vsep] using hlen) hb
      rw [show [c2] ++ vsep ++ b = c2 :: ':' :: ' ' :: 'v' :: b from by simp [vsep]] at h1
      cases hm : pysplitF vsep fuel (c2 :: ':' :: ' ' :: 'v' :: b) with
      | nil => exact absurd hm (pysplitF_ne_nil _ _ _)
      | cons p ps =>
        rw [hm] at h1 h2
        cases ps with
        | nil => simp at h2
        | cons q ps2 =>
          simp only [hm]
          rw [pylast_head_irrel (c1 :: p) p q ps2]
          exact h1
    | c1 :: c2 :: c3 :: a3 =>
      have harg : (c1 :: c2 :: c3 :: a3) ++ vsep ++ b =
          c1 :: c2 :: c3 :: (a3 ++ vsep ++ b) := by simp
      rw [harg]
      simp only [pysplitF]
      by_cases hp : vsep.isPrefixOf (c1 :: c2 :: c3 :: (a3 ++ vsep ++ b)) = true
      · rw [if_pos ⟨vsep_ne_nil, hp⟩]
        have hdrop : (c1 :: c2 :: c3 :: (a3 ++ vsep ++ b)).drop vsep.length =
            a3 ++ vsep ++ b := rfl
        rw [hdrop]
        rw [pylast_cons_of_ne_nil [] _ (pysplitF_ne_nil vsep fuel _)]
        refine ih a3 b ?_ hb
        simp [List.length_append] at hf ⊢
        omega
      · rw [if_neg (fun hc => hp hc.2)]
        have harg2 : c2 :: c3 :: (a3 ++ vsep ++ b) = (c2 :: c3 :: a3) ++ vsep ++ b := by
          simp
        have hlen : (c2 :: c3 :: (a3 ++ vsep ++ b)).length ≤ fuel := by
          simp [List.length_append, vsep] at hf ⊢
          omega
        have hcs : containsSub vsep (c2 :: c3 :: (a3 ++ vsep ++ b)) = true := by
          rw [harg2]
          exact containsSub_append_mid vsep (c2 :: c3 :: a3) b
        have h2 := pysplitF_len2 vsep vsep_ne_nil fuel _ hlen hcs
        have h1 := ih (c2 :: c3 :: a3) b (by rw [← harg2]; exact hlen) hb
        rw [← harg2] at h1
        cases hm : pysplitF vsep fuel (c2 :: c3 :: (a3 ++ vsep ++ b)) with
        | nil => exact absurd hm (pysplitF_ne_nil _ _ _)
        | cons p ps =>
          rw [hm] at h1 h2
          cases ps with
          | nil => simp at h2
          | cons q ps2 =>
            simp only [hm]
            rw [pylast_head_irrel (c1 :: p) p q ps2]
            exact h1

/-- The split-and-take-last computation of `get_ver`, in closed form: on a
stripped first line of the shape `a ++ ': v' ++ b` with no further
separator inside `b`, the result is `b`. -/
theorem get_ver_after_last (fs : FS) (c a b : List Char)
    (h1 : fs.text (("Changelog.md").data) = some c)
    (h2 : pystrip (readline c) = a ++ vsep ++ b)
    (h3 : containsSub vsep b = false) :
    get_ver fs = some b := by
  simp only [get_ver, h1, pysplit]
  rw [h2]
  exact congrArg some (pysplit_last_v _ a b (le_refl _) h3)

theorem dropWhile_append_aux (p : Char → Bool) (x y : List Char) :
    (x ++ y).dropWhile p =
      if (x.dropWhile p).isEmpty then y.dropWhile p else x.dropWhile p ++ y := by
  induction x with
  | nil => simp
  | cons c cs ih =>
    by_cases h : p c
    · simp only [List.cons_append, List.dropWhile_cons, h, ite_true, ih]
    · simp [List.dropWhile_cons, h]

theorem rstrip_append_nl (x : List Char) : rstrip (x ++ ['\n']) = rstrip x := by
  have hsp : isPySpace '\n' = true := by decide
  simp [rstrip, List.dropWhile_cons, hsp]

theorem pystrip_append_nl (x : List Char) : pystrip (x ++ ['\n']) = pystrip x := by
  unfold pystrip lstrip
  rw [dropWhile_append_aux]
  by_cases h : (x.dropWhile isPySpace).isEmpty
  · rw [if_pos h]
    have h1 : List.dropWhile isPySpace ['\n'] = [] := by decide
    have h2 : x.dropWhile isPySpace = [] := by
      cases hv : x.dropWhile isPySpace with
      | nil => rfl
      | cons a as => rw [hv] at h; simp [List.isEmpty] at h
    rw [h1, h2]
  · rw [if_neg h, rstrip_append_nl]

theorem rstrip_append_last (y : List Char) (c : Char) (h : isPySpace c = false) :
    rstrip (y ++ [c]) = y ++ [c] := by
  simp [rstrip, List.dropWhile_cons, h]

theorem pystrip_append_vsep (a : List Char) :
    ∃ b, pystrip (a ++ vsep) = b ++ vsep := by
  unfold pystrip lstrip
  rw [dropWhile_append_aux]
  by_cases h : (a.dropWhile isPySpace).isEmpty
  · refine ⟨[], ?_⟩
    rw [if_pos h]
    decide
  · refine ⟨a.dropWhile isPySpace, ?_⟩
    rw [if_neg h]
    have hsplit : a.dropWhile isPySpace ++ vsep =
        (a.dropWhile isPySpace ++ [':', ' ']) ++ ['v'] := by
      simp [vsep]
    rw [hsplit, rstrip_append_last _ 'v' (by decide)]

theorem chompNl_cases : ∀ l : List Char, l = chompNl l ∨ l = chompNl l ++ ['\n']
  | [] => Or.inl rfl
  | [c] => by
    by_cases h : c = '\n'
    · right
      simp [chompNl, h]
    · left
      simp [chompNl, h]
  | c :: d :: cs => by
    rcases chompNl_cases (d :: cs) with h | h
    · left
      rw [chompNl, ← h]
    · right
      rw [chompNl, List.cons_append, ← h]

theorem pyreplaceF_irrel (old new : List Char) :
    ∀ f g s, s.length ≤ f → s.length ≤ g →
      pyreplaceF old new f s = pyreplaceF old new g s := by
  intro f
  induction f with
  | zero =>
    intro g s hf hg
    have hs : s = [] := List.eq_nil_of_length_eq_zero (Nat.le_zero.mp hf)
    subst hs
    cases g <;> rfl
  | succ fuel ih =>
    intro g s hf hg
    cases s with
    | nil => cases g <;> rfl
    | cons c cs =>
      cases g with
      | zero => simp at hg
      | succ g2 =>
        simp only [pyreplaceF]
        by_cases hc : old ≠ [] ∧ old.isPrefixOf (c :: cs) = true
        · rw [if_pos hc, if_pos hc]
          have hlen : ((c :: cs).drop old.length).length ≤ fuel := by
            have h1 : 1 ≤ old.length := by
              cases ho : old with
              | nil => exact absurd ho hc.1
              | cons _ _ => simp
            simp only [List.length_drop, List.length_cons] at *
            omega
          have hlen2 : ((c :: cs).drop old.length).length ≤ g2 := by
            have h1 : 1 ≤ old.length := by
              cases ho : old with
              | nil => exact absurd ho hc.1
              | cons _ _ => simp
            simp only [List.length_drop, List.length_cons] at *
            omega
          rw [ih g2 _ hlen hlen2]
        · rw [if_neg hc, if_neg hc]
          have hlen : cs.length ≤ fuel := by simp at hf; omega
          have hlen2 : cs.length ≤ g2 := by simp at hg; omega
          rw [ih g2 cs hlen hlen2]

theorem pyreplaceF_mid (old new : List Char) (hold : old ≠ []) :
    ∀ f a b, (a ++ old ++ b).length ≤ f →
      (∀ i, i < a.length → old.isPrefixOf ((a ++ old ++ b).drop i) = false) →
      pyreplaceF old new f (a ++ old ++ b) = a ++ new ++ pyreplace old new b := by
  intro f
  induction f with
  | zero =>
    intro a b hf _
    exfalso
    have h1 : 1 ≤ old.length := by
      cases ho : old with
      | nil => exact absurd ho hold
      | cons _ _ => simp
    have h2 : (a ++ old ++ b).length = a.length + old.length + b.length := by
      simp [List.length_append]
      omega
    omega
  | succ fuel ih =>
    intro a b hf hno
    cases a with
    | nil =>
      cases ho : old with
      | nil => exact absurd ho hold
      | cons o os =>
        rw [← ho]
        have harg : ([] : List Char) ++ old ++ b = o :: (os ++ b) := by simp [ho]
        rw [harg]
        simp only [pyreplaceF]
        rw [if_pos ⟨hold, by rw [← harg]; simp [isPrefixOf_append_self old b]⟩]
        have hdrop : (o :: (os ++ b)).drop old.length = b := by
          rw [← harg]
          simp [List.drop_left old b]
        rw [hdrop]
        have hlenb : b.length ≤ fuel := by
          simp [ho, List.length_append] at hf
          omega
        rw [pyreplaceF_irrel old new fuel b.length b hlenb (le_refl _)]
        simp [pyreplace]
    | cons c a2 =>
      have h0 := hno 0 (by simp)
      simp only [List.drop_zero] at h0
      have hpre : old.isPrefixOf ((c :: a2) ++ old ++ b) = false := h0
      have harg : (c :: a2) ++ old ++ b = c :: (a2 ++ old ++ b) := by simp
      rw [harg]
      simp only [pyreplaceF]
      rw [if_neg (fun hc => by rw [← harg] at hc; rw [hpre] at hc; exact Bool.noConfusion hc.2)]
      have hlen : (a2 ++ old ++ b).length ≤ fuel := by
        simp [List.length_append] at hf ⊢
        omega
      have hno2 : ∀ i, i < a2.length → old.isPrefixOf ((a2 ++ old ++ b).drop i) = false := by
        intro i hi
        have h1 := hno (i + 1) (by simp; omega)
        rw [harg] at h1
        simpa using h1
      rw [ih a2 b hlen hno2]
      simp

/-- Python `replace` on a string carrying a designated leftmost occurrence
of `old`: the occurrence is replaced and replacement continues after it. -/
theorem pyreplace_mid (old new a b : List Char) (hold : old ≠ [])
    (hno : ∀ i, i < a.length → old.isPrefixOf ((a ++ old ++ b).drop i) = false) :
    pyreplace old new (a ++ old ++ b) = a ++ new ++ pyreplace old new b :=
  pyreplaceF_mid old new hold _ a b (le_refl _) hno

/-- The output of `embed`'s loop is the ordered concatenation of one chunk
per template line (as long as no exception interrupts the pass). -/
theorem embedGo_join (fs : FS) (manual version : List Char) :
    ∀ ls : List (List Char), (embedGo fs manual version ls).2 = false →
      (embedGo fs manual version ls).1 =
        (ls.map (fun l => (process_line fs manual version l).getD [])).flatten := by
  intro ls
  induction ls with
  | nil => intro _; simp [embedGo]
  | cons line rest ih =>
    intro h
    cases hp : process_line fs manual version line with
    | none => simp [embedGo, hp] at h
    | some chunk =>
      simp only [embedGo, hp] at h ⊢
      simp [ih h, hp]

/-! ### The claims -/

/-- Claim C1: in the template pass, a line matching none of the five
classifiers contributes itself, unchanged, as its output chunk, and the
whole output is the in-order concatenation of one chunk per input line
(an inlined block counting as the chunk of a script-include line). -/
theorem c1_unmatched_lines_pass_through (fs : FS) (manual version : List Char)
    (lines : List (List Char))
    (herr : (embedGo fs manual version lines).2 = false) :
    (embedGo fs manual version lines).1 =
      (lines.map (fun l => (process_line fs manual version l).getD [])).flatten ∧
    ∀ l ∈ lines,
      script_match l = none → version_matches l = false →
      urlpng_match l = none → img_match l = none →
      pystrip l ≠ ("MANUAL").data →
      process_line fs manual version l = some l := by
  constructor
  · exact embedGo_join fs manual version lines herr
  · intro l _ h1 h2 h3 h4 h5
    simp [process_line, h1, h2, h3, h4, h5]

theorem c1_witness :
    (embedGo fs_c1w [] [] [("hello\n").data, ("world\n").data]).1 =
      ([("hello\n").data, ("world\n").data].map
        (fun l => (process_line fs_c1w [] [] l).getD [])).flatten ∧
    process_line fs_c1w [] [] (("hello\n").data) = some (("hello\n").data) :=
  ⟨(c1_unmatched_lines_pass_through fs_c1w [] []
      [("hello\n").data, ("world\n").data] (by decide)).1,
   (c1_unmatched_lines_pass_through fs_c1w [] []
      [("hello\n").data, ("world\n").data] (by decide)).2
     (("hello\n").data) (by decide) (by decide) (by decide) (by decide)
     (by decide) (by decide)⟩

/-- Claim C2, counterexample: with `app.js` containing `x` (no trailing
newline), the chunk `embed` writes for the script-include line is
`<script>\nx</script>\n` — there is no newline between the script's
content and the closing tag, so the output is not
`<script>\n<contents>\n</script>\n`. -/
theorem c2_cex :
    fs_c2x.text (("app.js").data) = some (("x").data) ∧
    embed fs_c2x [] [] = (some (("<script>\nx</script>\n").data), false) ∧
    ("<script>\nx</script>\n").data ≠
      ("<script>\n").data ++ ("x").data ++ ("\n</script>\n").data := by decide

/-- Claim C2, amended: for the template line
`<script src="app.js"></script>`, `embed` writes `<script>\n`, then the
full contents of `app.js`, then `</script>\n`, with no newline inserted
after the contents. -/
theorem c2_script_inline (fs : FS) (manual version content : List Char)
    (h : fs.text (("app.js").data) = some content) :
    process_line fs manual version (("<script src=\"app.js\"></script>\n").data) =
      some ((("<script>\n").data) ++ content ++ (("</script>\n").data)) := by
  have hs : script_match (("<script src=\"app.js\"></script>\n").data) =
      some (("app.js").data) := by decide
  simp [process_line, hs, h]

theorem c2_witness :
    process_line fs_c2x [] [] (("<script src=\"app.js\"></script>\n").data) =
      some ((("<script>\n").data) ++ ("x").data ++ (("</script>\n").data)) :=
  c2_script_inline fs_c2x [] [] (("x").data) (by decide)

/-- Claim C5, counterexample: the changelog's first line
`Release notes: v2.3.1 ` has the form `<anything>: v<version-string>` with
version string `2.3.1 ` (note the trailing space), but `get_ver` strips
the line and returns `2.3.1`, not the substring `2.3.1 ` that follows the
last separator of the first line. -/
theorem c5_cex :
    chompNl (readline (("Release notes: v2.3.1 \n").data)) =
      ("Release notes").data ++ vsep ++ ("2.3.1 ").data ∧
    containsSub vsep (("2.3.1 ").data) = false ∧
    get_ver fs_c5x = some (("2.3.1").data) ∧
    some (("2.3.1").data) ≠ some (("2.3.1 ").data) := by decide

/-- Claim C5, amended: `get_ver` returns the substring after the last
occurrence of `': v'` in the whitespace-stripped first line of the
changelog. -/
theorem c5_version_after_separator (fs : FS) (c a b : List Char)
    (h1 : fs.text (("Changelog.md").data) = some c)
    (h2 : pystrip (readline c) = a ++ vsep ++ b)
    (h3 : containsSub vsep b = false) :
    get_ver fs = some b :=
  get_ver_after_last fs c a b h1 h2 h3

theorem c5_witness : get_ver fs_c5w = some (("2.3.1").data) :=
  c5_version_after_separator fs_c5w (("Release notes: v2.3.1\nolder notes").data)
    (("Release notes").data) (("2.3.1").data) (by decide) (by decide) (by decide)

/-- Claim C6, counterexample: on a changelog whose first line `hello`
contains no `': v'` separator, `get_ver` returns the string `hello` —
a present value, not the absent value the claim requires for malformed
first lines. -/
theorem c6_cex :
    fs_c6b.text (("Changelog.md").data) = some (("hello").data) ∧
    containsSub vsep (("hello").data) = false ∧
    get_ver fs_c6b = some (("hello").data) ∧
    get_ver fs_c6b ≠ none := by decide

/-- Claim C6, amended: `get_ver` returns the absent value only when the
changelog cannot be read; when the first line lacks the separator `': v'`,
it returns the whole whitespace-stripped first line as the version. -/
theorem c6_absent_only_when_unreadable (fs : FS) (c : List Char) :
    (fs.text (("Changelog.md").data) = none → get_ver fs = none) ∧
    (fs.text (("Changelog.md").data) = some c →
      containsSub vsep (pystrip (readline c)) = false →
      get_ver fs = some (pystrip (readline c))) := by
  constructor
  · intro h
    simp [get_ver, h]
  · intro h1 h2
    simp only [get_ver, h1, pysplit]
    rw [pysplitF_no_sep vsep _ _ h2]
    rfl

theorem c6_witness :
    get_ver fs_c6a = none ∧ get_ver fs_c6b = some (("hello").data) :=
  ⟨(c6_absent_only_when_unreadable fs_c6a []).1 rfl,
   (c6_absent_only_when_unreadable fs_c6b (("hello").data)).2 (by decide) (by decide)⟩

/-- Claim C7: when `get_ver` returns the absent value, `main` prints the
abort message and halts after the data-build step: neither the manual
build, the template embed, the service-worker stamp nor the deployment
runs. -/
theorem c7_halt_on_missing_version (fs : FS) (h : get_ver fs = none) :
    main_run fs = ([Step.create_db], true) := by
  simp [main_run, py_falsy, h]

theorem c7_witness : main_run fs_c7w = ([Step.create_db], true) :=
  c7_halt_on_missing_version fs_c7w (by decide)

/-- Claim C10: when the changelog's first line ends with the separator
`': v'`, `get_ver` returns the empty string, and `main` treats it exactly
like an absent version: it prints the abort message and runs no step
beyond the data build. -/
theorem c10_empty_version_halts (fs : FS) (c : List Char)
    (h1 : fs.text (("Changelog.md").data) = some c)
    (h2 : vsep.isSuffixOf (chompNl (readline c)) = true) :
    get_ver fs = some [] ∧ main_run fs = ([Step.create_db], true) := by
  obtain ⟨t, ht⟩ := isSuffixOf_ex h2
  have hps : ∃ u, pystrip (readline c) = u ++ vsep := by
    rcases chompNl_cases (readline c) with hc | hc
    · rw [hc, ht]
      exact pystrip_append_vsep t
    · rw [hc, ht, pystrip_append_nl]
      exact pystrip_append_vsep t
  obtain ⟨u, hu⟩ := hps
  have hv : get_ver fs = some [] := by
    refine get_ver_after_last fs c u [] h1 ?_ (by decide)
    rw [hu, List.append_nil]
  refine ⟨hv, ?_⟩
  simp [main_run, py_falsy, hv]

theorem c10_witness :
    get_ver fs_c10w = some [] ∧ main_run fs_c10w = ([Step.create_db], true) :=
  c10_empty_version_halts fs_c10w (("Release notes: v\n").data) (by decide) (by decide)

/-- Claim C3, counterexample: a missing PNG does not stop the template
pass.  With `a.png` absent, `embed` keeps going: the failing line is
rewritten with an empty data URI, the following line is still processed,
and the top-level handler catches nothing — the output is not cut off at
the failing line. -/
theorem c3_cex :
    fs_c3x.bin (("a.png").data) = none ∧
    embed fs_c3x [] [] = (some (("url()\nnext\n").data), false) ∧
    ("url()\nnext\n").data ≠ ([] : List Char) := by decide

/-- Claim C3, amended: the only exception of the template pass caught at
the top level is a script-include line whose referenced script cannot be
read; it stops the pass at that line, and the partial output (the chunks
of the lines already processed) is left as written.  A missing PNG is
caught inside `png_encode`, which returns the empty string, and the pass
continues with an empty data URI. -/
theorem c3_only_script_errors_stop_the_pass (fs : FS)
    (manual version line : List Char) (rest : List (List Char))
    (g1 g2 g3 : List Char) :
    (process_line fs manual version line = none →
      embedGo fs manual version (line :: rest) = ([], true) ∧
      ∃ src, script_match line = some src ∧ fs.text src = none) ∧
    (script_match line = none → version_matches line = false →
      urlpng_match line = some (g1, g2, g3) → fs.bin g2 = none →
      process_line fs manual version line =
        some (g1 ++ ("url(").data ++ [')'] ++ g3 ++ ['\n'])) := by
  constructor
  · intro h
    refine ⟨by simp [embedGo, h], ?_⟩
    cases hs : script_match line with
    | none =>
      exfalso
      simp only [process_line, hs] at h
      split at h
      · exact Option.noConfusion h
      · split at h
        · exact Option.noConfusion h
        · split at h
          · exact Option.noConfusion h
          · split at h
            · exact Option.noConfusion h
            · exact Option.noConfusion h
    | some src =>
      cases ht : fs.text src with
      | none => exact ⟨src, rfl, ht⟩
      | some content =>
        exfalso
        simp [process_line, hs, ht] at h
  · intro h1 h2 h3 h4
    simp [process_line, h1, h2, h3, png_encode, h4]

theorem c3_witness :
    (embedGo fs_c3x [] [] [("<script src=\"gone.js\"></script>\n").data] =
        ([], true) ∧
      ∃ src, script_match (("<script src=\"gone.js\"></script>\n").data) =
          some src ∧ fs_c3x.text src = none) ∧
    process_line fs_c3x [] [] (("url(a.png)\n").data) =
      some ((("url()\n").data)) :=
  ⟨(c3_only_script_errors_stop_the_pass fs_c3x [] []
      (("<script src=\"gone.js\"></script>\n").data) [] [] [] []).1 (by decide),
   (c3_only_script_errors_stop_the_pass fs_c3x [] []
      (("url(a.png)\n").data) [] [] (("a.png").data) []).2
     (by decide) (by decide) (by decide) (by decide)⟩

/-- Claim C4, counterexample: the line
`<script src="a.js"></script> Settings (version)` matches the
version-marker pattern, but it also matches the script-include pattern,
which has priority: `embed` inlines `a.js` and performs no `version`
substitution on the line. -/
theorem c4_cex :
    version_matches
        (("<script src=\"a.js\"></script> Settings (version)\n").data) = true ∧
    embed fs_c4x [] (("9").data) =
      (some (("<script>\nx</script>\n").data), false) ∧
    ("<script>\nx</script>\n").data ≠
      pyreplace (("version").data) (("9").data)
        (("<script src=\"a.js\"></script> Settings (version)\n").data) := by decide

/-- Claim C4, amended: for a template line that matches the version-marker
pattern and does not match the higher-priority script-include pattern,
`embed` writes the line with every (left-to-right, non-overlapping)
occurrence of the literal `version` replaced by the version string; in
particular the replacement rewrites a designated occurrence with nothing
matching before it and continues beyond it. -/
theorem c4_version_replaced (fs : FS) (manual version line : List Char)
    (h1 : script_match line = none) (h2 : version_matches line = true) :
    process_line fs manual version line =
      some (pyreplace (("version").data) version line) ∧
    ∀ a b : List Char,
      line = a ++ ("version").data ++ b →
      (∀ i, i < a.length →
        (("version").data).isPrefixOf (line.drop i) = false) →
      pyreplace (("version").data) version line =
        a ++ version ++ pyreplace (("version").data) version b := by
  constructor
  · simp [process_line, h1, h2]
  · intro a b hab hno
    subst hab
    exact pyreplace_mid (("version").data) version a b (by decide) hno

theorem c4_witness :
    process_line fs_empty [] (("9").data) (("  Settings (version)\n").data) =
      some (pyreplace (("version").data) (("9").data)
        (("  Settings (version)\n").data)) ∧
    pyreplace (("version").data) (("9").data) (("  Settings (version)\n").data) =
      ("  Settings (").data ++ ("9").data ++
        pyreplace (("version").data) (("9").data) ((")\n").data) :=
  ⟨(c4_version_replaced fs_empty [] (("9").data) (("  Settings (version)\n").data)
      (by decide) (by decide)).1,
   (c4_version_replaced fs_empty [] (("9").data) (("  Settings (version)\n").data)
      (by decide) (by decide)).2
     (("  Settings (").data) ((")\n").data) (by decide) (by decide)⟩

/-- Claim C8: with `header.html` = `H`, `footer.html` = `F` and a README
converting to `B`, `make_manual` writes `HFB` to `manual.html` — header,
then footer, then body — and returns the body alone; the claimed sandwich
`HBF` (header, body, footer) is not what is written. -/
theorem c8_footer_written_before_body :
    make_manual fs_c8 (fun t => t) = (some (("HFB").data), ("B").data) ∧
    ("HFB").data ≠ ("HBF").data := by decide

/-- Claim C9: `deploy_files` first creates the target directory when it is
absent; every listed file that exists is copied even when another listed
file is missing (the missing one is only logged), and the `icons`
directory is still copied when it exists and its destination does not. -/
theorem c9_missing_file_does_not_abort (fs : FS) (target f0 : List Char)
    (_hmem : f0 ∈ files_to_copy) (_hmiss : fs.bin f0 = none) :
    (fs.dirs.contains target = false →
      (deploy_files fs target).head? = some (DAct.mkdirs target)) ∧
    (∀ f ∈ files_to_copy, (fs.bin f).isSome = true →
      DAct.copy_ok f (path_join target f) ∈ deploy_files fs target) ∧
    (fs.dirs.contains (("icons").data) = true →
      fs.dirs.contains (path_join target (("icons").data)) = false →
      DAct.tree_ok (("icons").data) (path_join target (("icons").data)) ∈
        deploy_files fs target) := by
  refine ⟨?_, ?_, ?_⟩
  · intro h
    have h2 : target ∉ fs.dirs := by simpa using h
    simp [deploy_files, h2]
  · intro f hf hsome
    have hc : copyf fs f (path_join target f) = DAct.copy_ok f (path_join target f) := by
      simp [copyf, hsome]
    simp only [deploy_files, List.mem_append]
    left
    right
    exact List.mem_map.mpr ⟨f, hf, hc⟩
  · intro h1 h2
    have h3 : ("icons").data ∈ fs.dirs := by simpa using h1
    have h4 : path_join target (("icons").data) ∉ fs.dirs := by simpa using h2
    have hc : copytree fs (("icons").data) (path_join target (("icons").data)) =
        DAct.tree_ok (("icons").data) (path_join target (("icons").data)) := by
      simp [copytree, h3, h4]
    simp only [deploy_files, List.mem_append]
    right
    simp [hc]

theorem c9_witness :
    ((deploy_files fs_c9w (("_deploy").data)).head? =
        some (DAct.mkdirs (("_deploy").data))) ∧
    DAct.copy_ok (("manual.html").data)
        (path_join (("_deploy").data) (("manual.html").data)) ∈
      deploy_files fs_c9w (("_deploy").data) ∧
    DAct.tree_ok (("icons").data)
        (path_join (("_deploy").data) (("icons").data)) ∈
      deploy_files fs_c9w (("_deploy").data) :=
  have h := c9_missing_file_does_not_abort fs_c9w (("_deploy").data)
    (("LICENSE").data) (by decide) (by decide)
  ⟨h.1 (by decide),
   h.2.1 (("manual.html").data) (by decide) (by decide),
   h.2.2 (by decide) (by decide)⟩
